import Mathlib

/-!
AsyncLogger: a shallow embedding of `src/Logger/AsyncLogger.h` and `AsyncLogger.cpp`

The logger is a multi-producer / single-consumer queue in front of a console
sink and a table of lazily opened file sinks.  The embedding keeps the
source's names.  A `std::string` is a Lean `String` (one `Char` per C++
`char`), the logger object is a record of its data members, and everything
outside the object (the two standard streams and the file system) is a
`World` record that the I/O functions thread through explicitly.

The wall clock is an input: `LogMessage.new` receives the text that
`std::put_time(&buf, "%Y-%m-%d %H:%M:%S")` produced.
-/

namespace AsyncLoggerModel

/-! ## Data model (`AsyncLogger.h`) -/

/-- Enumeration `enum class LogLevel` of `AsyncLogger.h`, in declaration order. -/
inductive LogLevel where
  | DEBUG
  | INFO
  | WARNING
  | ERROR
  deriving DecidableEq, Repr

/-- Underlying enumerator value; `operator<` on the enum compares these. -/
def LogLevel.toNat : LogLevel → Nat
  | .DEBUG => 0
  | .INFO => 1
  | .WARNING => 2
  | .ERROR => 3

instance : LT LogLevel := ⟨fun a b => a.toNat < b.toNat⟩

instance (a b : LogLevel) : Decidable (a < b) :=
  inferInstanceAs (Decidable (a.toNat < b.toNat))

/-- Record `struct LogMessage`, fields in declaration order. -/
structure LogMessage where
  level : LogLevel
  message : String
  timestamp : String
  deriving DecidableEq, Repr

/-- Constructor `LogMessage::LogMessage(lvl, msg)`.  The argument `now` is the
rendering of the clock reading taken inside the constructor. -/
def LogMessage.new (now : String) (lvl : LogLevel) (msg : String) : LogMessage :=
  { level := lvl, message := msg, timestamp := now }

/-- A `std::ofstream` object: the path it was constructed with, the result of
`is_open()`, and whether an error flag of the stream state is set (`fail()`).
The source never calls `clear()`, so a flag that is set stays set. -/
structure OFStream where
  path : String
  isOpen : Bool
  failed : Bool
  deriving DecidableEq, Repr

/-- Everything outside the logger object.  `stdout` and `stderr` hold the text
written to `std::cout` and `std::cerr`; `fs` gives each path's file content;
`openOk` says whether opening a path in append mode succeeds; `writeOk p c d`
says whether appending the text `d` to the file at path `p` succeeds when its
content is `c`; `openCalls` lists the paths on which an `std::ofstream` was
constructed, oldest first. -/
structure World where
  stdout : String
  stderr : String
  fs : String → String
  openOk : String → Bool
  writeOk : String → String → String → Bool
  openCalls : List String

/-- Data members of `class AsyncLogger`.  The two `std::map`s are functions
into `Option` (`none`: no entry, or a null pointer).  `workerExited` is the
control state of the `worker` thread: `processQueue` has returned. -/
structure AsyncLogger where
  baseFilename : String
  minLogLevel : LogLevel
  separateFilesByLevel : Bool
  useJsonFormat : Bool
  maxFileSizeBytes : Nat
  files : LogLevel → Option OFStream
  fileIndex : LogLevel → Option Int
  logQueue : List LogMessage
  exitFlag : Bool
  workerExited : Bool

/-- Constructor `AsyncLogger::AsyncLogger`: the member initialisers, with both
maps and the queue default-constructed empty and the worker thread launched. -/
def AsyncLogger.new (baseFilename : String) (minLogLevel : LogLevel)
    (separateFilesByLevel useJsonFormat : Bool) (maxFileSizeBytes : Nat) : AsyncLogger :=
  { baseFilename := baseFilename
    minLogLevel := minLogLevel
    separateFilesByLevel := separateFilesByLevel
    useJsonFormat := useJsonFormat
    maxFileSizeBytes := maxFileSizeBytes
    files := fun _ => none
    fileIndex := fun _ => none
    logQueue := []
    exitFlag := false
    workerExited := false }

/-! ## Formatting (`AsyncLogger.cpp`, lines 26-34 and 110-123) -/

/-- Function `logLevelToString`.  The `default` arm of the source's `switch` is
not reachable from the four enumerators. -/
def logLevelToString : LogLevel → String
  | .DEBUG => "DEBUG"
  | .INFO => "INFO"
  | .WARNING => "WARNING"
  | .ERROR => "ERROR"

/-- Method `AsyncLogger::formatMessage`. -/
def formatMessage (self : AsyncLogger) (msg : LogMessage) : String :=
  if self.useJsonFormat then
    "\x7b\"timestamp\":\"" ++ msg.timestamp
      ++ "\",\"level\":\"" ++ logLevelToString msg.level
      ++ "\",\"message\":\"" ++ msg.message ++ "\"\x7d"
  else
    msg.timestamp ++ " [" ++ logLevelToString msg.level ++ "] " ++ msg.message

/-! ## Sinks (`AsyncLogger.cpp`, lines 125-162) -/

/-- Escape sequence selected by the `switch` of `outputToConsole`. -/
def colorCode : LogLevel → String
  | .DEBUG => "\x1b[90m"
  | .INFO => "\x1b[32m"
  | .WARNING => "\x1b[33m"
  | .ERROR => "\x1b[31m"

/-- Method `AsyncLogger::outputToConsole`.  The flag `win32` stands for the
preprocessor symbol `_WIN32`; `std::endl` writes a newline. -/
def outputToConsole (win32 : Bool) (w : World) (msg : LogMessage) (formatted : String) : World :=
  if win32 then
    { w with stdout := w.stdout ++ formatted ++ "\n" }
  else
    { w with stdout := w.stdout ++ colorCode msg.level ++ formatted ++ "\x1b[0m" ++ "\n" }

/-- Method `AsyncLogger::outputToFile`.  Constructing the `std::ofstream` is
recorded in `openCalls` and yields a stream that is open exactly when the
world lets the path be opened, with the error flag set when it does not.  The
source writes through an open stream without looking at its state: on a
stream whose error flag is set the insertions and the flush do nothing;
otherwise the line and its newline are appended to the file at the stream's
path when the world lets the write succeed, and when it does not the line is
lost and the error flag is set. -/
def outputToFile (self : AsyncLogger) (w : World) (msg : LogMessage) (formatted : String) :
    AsyncLogger × World :=
  let level := if self.separateFilesByLevel then msg.level else LogLevel.DEBUG
  let opened : AsyncLogger × World :=
    match self.files level with
    | some _ => (self, w)
    | none =>
      let filename := self.baseFilename
      let filename :=
        if self.separateFilesByLevel then filename ++ ("_" ++ logLevelToString level) else filename
      let filename := filename ++ ".log"
      ({ self with
          files := Function.update self.files level
            (some ⟨filename, w.openOk filename, !w.openOk filename⟩)
          fileIndex := Function.update self.fileIndex level (some 1) },
       { w with openCalls := w.openCalls ++ [filename] })
  match opened.1.files level with
  | some file =>
    if file.isOpen then
      if file.failed then opened
      else if opened.2.writeOk file.path (opened.2.fs file.path) (formatted ++ "\n") then
        (opened.1,
         { opened.2 with
            fs := Function.update opened.2.fs file.path
              (opened.2.fs file.path ++ formatted ++ "\n") })
      else
        ({ opened.1 with
            files := Function.update opened.1.files level (some { file with failed := true }) },
         opened.2)
    else opened
  | none => opened

/-! ## Producer, worker and shutdown (`AsyncLogger.cpp`, lines 59-107) -/

/-- Method `AsyncLogger::log`.  `cv.notify_one()` changes no data member. -/
def log (self : AsyncLogger) (now : String) (level : LogLevel) (message : String) : AsyncLogger :=
  if level < self.minLogLevel then self
  else
    let logMsg := LogMessage.new now level message
    { self with logQueue := self.logQueue ++ [logMsg] }

/-- Predicate passed to `cv.wait` in `processQueue`. -/
def waitPredicate (self : AsyncLogger) : Bool :=
  !self.logQueue.isEmpty || self.exitFlag

/-- One pass through the body of the `while (true)` loop of
`AsyncLogger::processQueue`.  While the wait predicate is false the thread
stays blocked in `cv.wait`; once the loop has been left nothing more happens.
The pop and the three output calls form one step: producers touch only the
queue and the outputs touch only the sinks. -/
def processQueueStep (win32 : Bool) (self : AsyncLogger) (w : World) : AsyncLogger × World :=
  if self.workerExited then (self, w)
  else if !waitPredicate self then (self, w)
  else if self.exitFlag && self.logQueue.isEmpty then ({ self with workerExited := true }, w)
  else
    match self.logQueue with
    | [] => (self, w)
    | msg :: rest =>
      let self1 := { self with logQueue := rest }
      let formatted := formatMessage self1 msg
      let w1 := outputToConsole win32 w msg formatted
      outputToFile self1 w1 msg formatted

/-- First part of `AsyncLogger::~AsyncLogger` (lines 60-64): raise the exit
flag under the queue lock and notify the worker. -/
def destructorBegin (self : AsyncLogger) : AsyncLogger :=
  { self with exitFlag := true }

/-- Last part of `AsyncLogger::~AsyncLogger` (lines 70-74), run after
`worker.join()` has returned: close every stream that is open. -/
def destructorEnd (self : AsyncLogger) : AsyncLogger :=
  { self with files := fun k => (self.files k).map fun f => { f with isOpen := false } }

/-! ## The system as a transition system -/

/-- Atomic steps of a running logger: a producer's call of `log` (with the
clock text its `LogMessage` captures), one pass of the worker loop, and the
destructor's shutdown request. -/
inductive Action where
  | log (now : String) (level : LogLevel) (message : String)
  | worker
  | shutdown
  deriving DecidableEq, Repr

/-- Effect of one action on the logger and the world. -/
def step (win32 : Bool) (s : AsyncLogger × World) : Action → AsyncLogger × World
  | .log now level message => (log s.1 now level message, s.2)
  | .worker => processQueueStep win32 s.1 s.2
  | .shutdown => (destructorBegin s.1, s.2)

/-- State reached from `s` by a sequence of actions, oldest first. -/
def run (win32 : Bool) (s : AsyncLogger × World) (tr : List Action) : AsyncLogger × World :=
  tr.foldl (step win32) s

/-! ## Vocabulary for stating the properties -/

/-- Concatenation of a list of strings, in order. -/
def joinAll : List String → String
  | [] => ""
  | s :: ss => s ++ joinAll ss

/-- Events that the `log` calls of a trace accept under minimum level `min`, in
call order. -/
def accepted (min : LogLevel) : List Action → List LogMessage
  | [] => []
  | .log now level message :: tr =>
    if level < min then accepted min tr else LogMessage.new now level message :: accepted min tr
  | _ :: tr => accepted min tr

/-- Text that emitting `msg` adds to the console. -/
def consoleLine (win32 : Bool) (self : AsyncLogger) (msg : LogMessage) : String :=
  if win32 then formatMessage self msg ++ "\n"
  else colorCode msg.level ++ formatMessage self msg ++ "\x1b[0m" ++ "\n"

/-- Text that emitting `msg` adds to a file whose stream is open. -/
def fileLine (self : AsyncLogger) (msg : LogMessage) : String :=
  formatMessage self msg ++ "\n"

/-- Key of the handle table that `outputToFile` uses for `msg`. -/
def sinkKey (self : AsyncLogger) (msg : LogMessage) : LogLevel :=
  if self.separateFilesByLevel then msg.level else LogLevel.DEBUG

/-- Path of the file behind key `level`. -/
def sinkPath (self : AsyncLogger) (level : LogLevel) : String :=
  if self.separateFilesByLevel then self.baseFilename ++ ("_" ++ logLevelToString level) ++ ".log"
  else self.baseFilename ++ ".log"

/-- The worker's three output calls for one dequeued message (lines 103-105). -/
def emit (win32 : Bool) (s : AsyncLogger × World) (msg : LogMessage) : AsyncLogger × World :=
  let formatted := formatMessage s.1 msg
  outputToFile s.1 (outputToConsole win32 s.2 msg formatted) msg formatted

/-- The worker's output calls for a sequence of dequeued messages, in order. -/
def emitAll (win32 : Bool) (s : AsyncLogger × World) (es : List LogMessage) : AsyncLogger × World :=
  es.foldl (emit win32) s

/-- Whether emitting `msg` writes to path `p`: the path is the one behind the
message's key and the world lets it be opened. -/
def routed (self : AsyncLogger) (w : World) (p : String) (msg : LogMessage) : Bool :=
  decide (sinkPath self (sinkKey self msg) = p) && w.openOk p

/-- Stream that `outputToFile` writes `msg` through: the one already in the
table under the message's key, or else the one it constructs. -/
def usedStream (self : AsyncLogger) (w : World) (msg : LogMessage) : OFStream :=
  match self.files (sinkKey self msg) with
  | some h => h
  | none =>
    ⟨sinkPath self (sinkKey self msg), w.openOk (sinkPath self (sinkKey self msg)),
      !w.openOk (sinkPath self (sinkKey self msg))⟩

/-- Whether `outputToFile` attempts a write of the line `f` through stream `h`
and the world lets it succeed. -/
def writeSucceeds (w : World) (h : OFStream) (f : String) : Bool :=
  h.isOpen && !h.failed && w.writeOk h.path (w.fs h.path) (f ++ "\n")

/-- Whether `outputToFile` attempts a write of the line `f` through stream `h`
and the world makes it fail. -/
def writeFails (w : World) (h : OFStream) (f : String) : Bool :=
  h.isOpen && !h.failed && !w.writeOk h.path (w.fs h.path) (f ++ "\n")

/-- Every write to path `p` succeeds in world `w`. -/
def WritesOk (w : World) (p : String) : Prop :=
  ∀ c d, w.writeOk p c d = true

/-- Logger `b` with the queue and the two control flags replaced. -/
def withControl (b : AsyncLogger) (q : List LogMessage) (exitFlag workerExited : Bool) :
    AsyncLogger :=
  { b with logQueue := q, exitFlag := exitFlag, workerExited := workerExited }

/-- A `log` call with severity `DEBUG` or `INFO`. -/
def belowWarning : Action → Bool
  | .log _ .DEBUG _ => true
  | .log _ .INFO _ => true
  | _ => false

/-- Handles in the table are the ones `outputToFile` creates: the stream of key
`k` was constructed on `sinkPath k`, it is open exactly when the world lets
that path be opened, without splitting the only key is `DEBUG`, and an open
stream on a path whose writes all succeed has no error flag. -/
def HandlesOk (self : AsyncLogger) (w : World) : Prop :=
  ∀ k h, self.files k = some h →
    h.path = sinkPath self k
      ∧ h.isOpen = w.openOk (sinkPath self k)
      ∧ (self.separateFilesByLevel = false → k = LogLevel.DEBUG)
      ∧ (h.isOpen = true → WritesOk w h.path → h.failed = false)

/-- A key that `outputToFile` can use: any level with splitting, `DEBUG` without. -/
def ValidKey (self : AsyncLogger) (k : LogLevel) : Prop :=
  self.separateFilesByLevel = true ∨ k = LogLevel.DEBUG

/-- What holds of the state `s` reached from `(self0, w0)` by emitting the
messages `es`. -/
structure SinkInv (win32 : Bool) (self0 : AsyncLogger) (w0 : World) (es : List LogMessage)
    (s : AsyncLogger × World) : Prop where
  baseFilename : s.1.baseFilename = self0.baseFilename
  minLogLevel : s.1.minLogLevel = self0.minLogLevel
  separateFilesByLevel : s.1.separateFilesByLevel = self0.separateFilesByLevel
  useJsonFormat : s.1.useJsonFormat = self0.useJsonFormat
  logQueue : s.1.logQueue = self0.logQueue
  exitFlag : s.1.exitFlag = self0.exitFlag
  workerExited : s.1.workerExited = self0.workerExited
  openOk : s.2.openOk = w0.openOk
  writeOk : s.2.writeOk = w0.writeOk
  stderr : s.2.stderr = w0.stderr
  handles : HandlesOk s.1 s.2
  stdout : s.2.stdout = w0.stdout ++ joinAll (es.map (consoleLine win32 self0))
  fs : ∀ p, WritesOk w0 p → s.2.fs p
    = w0.fs p ++ joinAll ((es.filter (routed self0 w0 p)).map (fileLine self0))
  opens : ∃ opened, s.2.openCalls = w0.openCalls ++ opened ∧ opened.Nodup
    ∧ ∀ p ∈ opened, ∃ k, s.1.files k ≠ none ∧ ValidKey self0 k ∧ p = sinkPath self0 k

/-- How the state `s` reached by the trace `tr` relates to the messages
`emitted` so far: together with the queue they are the accepted messages, and
apart from queue and control flags `s` is the result of emitting them. -/
structure RunInv (win32 : Bool) (self0 : AsyncLogger) (w0 : World) (tr : List Action)
    (s : AsyncLogger × World) (emitted : List LogMessage) : Prop where
  queue : emitted ++ s.1.logQueue = self0.logQueue ++ accepted self0.minLogLevel tr
  state : s.1 = withControl (emitAll win32 (self0, w0) emitted).1
    s.1.logQueue s.1.exitFlag s.1.workerExited
  world : s.2 = (emitAll win32 (self0, w0) emitted).2

/-! ## Concrete worlds and states for evaluating the model -/

/-- World in which no path can be opened, used to evaluate the model. -/
def worldNoOpen : World :=
  { stdout := "", stderr := "", fs := fun _ => "", openOk := fun _ => false
    writeOk := fun _ _ _ => true, openCalls := [] }

/-- World in which every path can be opened and every write succeeds, used to
evaluate the model. -/
def worldAllOpen : World :=
  { stdout := "", stderr := "", fs := fun _ => "", openOk := fun _ => true
    writeOk := fun _ _ _ => true, openCalls := [] }

/-- World in which every path can be opened and the only write that fails is
the write of the line `A2`, used to evaluate the model. -/
def worldSecondWriteFails : World :=
  { stdout := "", stderr := "", fs := fun _ => "", openOk := fun _ => true
    writeOk := fun _ _ d => d != "2024-01-01 00:00:01 [DEBUG] A2\n", openCalls := [] }

/-- State after the worker has emitted one `ERROR` event from a fresh logger in
a world where no path can be opened. -/
def failedSinkState : AsyncLogger × World :=
  emit false (AsyncLogger.new "logs/logfile" .DEBUG true false 1048576, worldNoOpen)
    ⟨.ERROR, "first", "2024-01-01 00:00:00"⟩

/-! ## Formatting: proofs -/

theorem string_eq_of_data_eq {a b : String} (h : a.data = b.data) : a = b := by
  cases a; cases b; simp_all

theorem level_message_of_plain_tail (la lb : LogLevel) (ma mb : String)
    (h : (logLevelToString la).data ++ ("] ".data ++ ma.data)
      = (logLevelToString lb).data ++ ("] ".data ++ mb.data)) : la = lb ∧ ma = mb := by
  cases la <;> cases lb <;> simp [logLevelToString] at h <;>
    exact ⟨rfl, string_eq_of_data_eq h⟩

theorem level_message_of_json_tail (la lb : LogLevel) (ma mb : String)
    (h : (logLevelToString la).data ++ ("\",\"message\":\"".data ++ (ma.data ++ "\"\x7d".data))
      = (logLevelToString lb).data ++ ("\",\"message\":\"".data ++ (mb.data ++ "\"\x7d".data))) :
    la = lb ∧ ma = mb := by
  cases la <;> cases lb <;> simp [logLevelToString] at h <;>
    exact ⟨rfl, string_eq_of_data_eq h⟩

/-- C10: in each mode, two events whose timestamps have the same length and
that render to the same string are the same event. -/
theorem formatMessage_injective_of_timestamp_length (self : AsyncLogger) (a b : LogMessage)
    (hlen : a.timestamp.length = b.timestamp.length)
    (h : formatMessage self a = formatMessage self b) : a = b := by
  obtain ⟨la, ma, ta⟩ := a
  obtain ⟨lb, mb, tb⟩ := b
  simp only [String.length] at hlen
  have hd := congrArg String.data h
  rcases Bool.eq_false_or_eq_true self.useJsonFormat with hj | hj
  · simp only [formatMessage, hj, if_true, String.data_append, List.append_assoc] at hd
    have h1 := List.append_cancel_left hd
    obtain ⟨ht, h2⟩ := List.append_inj h1 hlen
    have h3 := List.append_cancel_left h2
    obtain ⟨hl, hm⟩ := level_message_of_json_tail la lb ma mb h3
    have ht2 := string_eq_of_data_eq ht
    subst hl; subst hm; subst ht2; rfl
  · simp only [formatMessage, hj, Bool.false_eq_true, if_false, String.data_append,
      List.append_assoc] at hd
    obtain ⟨ht, h2⟩ := List.append_inj hd hlen
    have h3 := List.append_cancel_left h2
    obtain ⟨hl, hm⟩ := level_message_of_plain_tail la lb ma mb h3
    have ht2 := string_eq_of_data_eq ht
    subst hl; subst hm; subst ht2; rfl

/-- C1: in plain mode the rendering of an event is its timestamp, a space,
the bracketed upper-case name of its severity, a space and its message. -/
theorem formatMessage_plain (self : AsyncLogger) (h : self.useJsonFormat = false)
    (t m : String) :
    formatMessage self ⟨.DEBUG, m, t⟩ = t ++ " [" ++ "DEBUG" ++ "] " ++ m
    ∧ formatMessage self ⟨.INFO, m, t⟩ = t ++ " [" ++ "INFO" ++ "] " ++ m
    ∧ formatMessage self ⟨.WARNING, m, t⟩ = t ++ " [" ++ "WARNING" ++ "] " ++ m
    ∧ formatMessage self ⟨.ERROR, m, t⟩ = t ++ " [" ++ "ERROR" ++ "] " ++ m := by
  simp [formatMessage, h, logLevelToString]

/-- Instance of C1: the `DEBUG` event `hello` of the specification. -/
theorem formatMessage_plain_witness :
    formatMessage (AsyncLogger.new "logs/logfile" .DEBUG true false 1048576)
      ⟨.DEBUG, "hello", "2024-01-01 00:00:00"⟩ = "2024-01-01 00:00:00 [DEBUG] hello" :=
  (formatMessage_plain (AsyncLogger.new "logs/logfile" .DEBUG true false 1048576) rfl
    "2024-01-01 00:00:00" "hello").1.trans (by decide)

/-- C2: in structured mode the rendering is the one-object text with the
fields `timestamp`, `level`, `message` in that order, the message copied
character for character: the result is exactly 40 characters longer than
timestamp, severity name and message together. -/
theorem formatMessage_json (self : AsyncLogger) (h : self.useJsonFormat = true)
    (t m : String) :
    formatMessage self ⟨.DEBUG, m, t⟩
      = "\x7b\"timestamp\":\"" ++ t ++ "\",\"level\":\"" ++ "DEBUG" ++ "\",\"message\":\"" ++ m
          ++ "\"\x7d"
    ∧ formatMessage self ⟨.INFO, m, t⟩
      = "\x7b\"timestamp\":\"" ++ t ++ "\",\"level\":\"" ++ "INFO" ++ "\",\"message\":\"" ++ m
          ++ "\"\x7d"
    ∧ formatMessage self ⟨.WARNING, m, t⟩
      = "\x7b\"timestamp\":\"" ++ t ++ "\",\"level\":\"" ++ "WARNING" ++ "\",\"message\":\"" ++ m
          ++ "\"\x7d"
    ∧ formatMessage self ⟨.ERROR, m, t⟩
      = "\x7b\"timestamp\":\"" ++ t ++ "\",\"level\":\"" ++ "ERROR" ++ "\",\"message\":\"" ++ m
          ++ "\"\x7d"
    ∧ ∀ s : LogLevel, (formatMessage self ⟨s, m, t⟩).length
        = t.length + (logLevelToString s).length + m.length + 40 := by
  refine ⟨?_, ?_, ?_, ?_, ?_⟩
  · simp [formatMessage, h, logLevelToString]
  · simp [formatMessage, h, logLevelToString]
  · simp [formatMessage, h, logLevelToString]
  · simp [formatMessage, h, logLevelToString]
  · intro s
    simp only [formatMessage, h, if_true, String.length_append]
    have e1 : "\x7b\"timestamp\":\"".length = 14 := by decide
    have e2 : "\",\"level\":\"".length = 11 := by decide
    have e3 : "\",\"message\":\"".length = 13 := by decide
    have e4 : "\"\x7d".length = 2 := by decide
    rw [e1, e2, e3, e4]
    omega

/-- Instance of C2 with a message that contains quote characters. -/
theorem formatMessage_json_witness :
    formatMessage (AsyncLogger.new "logs/logfile" .DEBUG true true 1048576)
      ⟨.DEBUG, "say \"hi\"", "2024-01-01 00:00:00"⟩
      = "\x7b\"timestamp\":\"2024-01-01 00:00:00\",\"level\":\"DEBUG\",\"message\":\"say \"hi\"\"\x7d" :=
  (formatMessage_json (AsyncLogger.new "logs/logfile" .DEBUG true true 1048576) rfl
    "2024-01-01 00:00:00" "say \"hi\"").1.trans (by decide)

/-- Instance of C10 in plain mode, with a message that contains the delimiters. -/
theorem formatMessage_injective_witness :
    "2024-01-01 00:00:00".length = "2024-01-01 00:00:00".length
    ∧ formatMessage (AsyncLogger.new "logs/logfile" .DEBUG true false 1048576)
        ⟨.INFO, "a] [INFO] " ++ "b", "2024-01-01 00:00:00"⟩
      = formatMessage (AsyncLogger.new "logs/logfile" .DEBUG true false 1048576)
        ⟨.INFO, "a] [INFO] b", "2024-01-01 00:00:00"⟩
    ∧ (⟨.INFO, "a] [INFO] " ++ "b", "2024-01-01 00:00:00"⟩ : LogMessage)
      = ⟨.INFO, "a] [INFO] b", "2024-01-01 00:00:00"⟩ :=
  ⟨by decide, by decide,
    formatMessage_injective_of_timestamp_length
      (AsyncLogger.new "logs/logfile" .DEBUG true false 1048576)
      ⟨.INFO, "a] [INFO] " ++ "b", "2024-01-01 00:00:00"⟩
      ⟨.INFO, "a] [INFO] b", "2024-01-01 00:00:00"⟩ (by decide) (by decide)⟩

/-! ## Sinks: one emission -/

theorem joinAll_append (a b : List String) : joinAll (a ++ b) = joinAll a ++ joinAll b := by
  induction a with
  | nil => simp [joinAll]
  | cons x xs ih => simp [joinAll, ih, String.append_assoc]

theorem joinAll_singleton (x : String) : joinAll [x] = x := by
  simp [joinAll]

/-- Closed form of `outputToFile`. -/
theorem outputToFile_eq (self : AsyncLogger) (w : World) (msg : LogMessage) (f : String) :
    outputToFile self w msg f
      = ({ self with
            files := Function.update self.files (sinkKey self msg)
              (some { usedStream self w msg with
                failed := (usedStream self w msg).failed
                  || writeFails w (usedStream self w msg) f })
            fileIndex :=
              if self.files (sinkKey self msg) = none then
                Function.update self.fileIndex (sinkKey self msg) (some 1)
              else self.fileIndex },
         { w with
            fs :=
              if writeSucceeds w (usedStream self w msg) f then
                Function.update w.fs (usedStream self w msg).path
                  (w.fs (usedStream self w msg).path ++ f ++ "\n")
              else w.fs
            openCalls :=
              if self.files (sinkKey self msg) = none then
                w.openCalls ++ [sinkPath self (sinkKey self msg)]
              else w.openCalls }) := by
  cases hk : self.files (sinkKey self msg) with
  | none =>
    have hu : usedStream self w msg
        = ⟨sinkPath self (sinkKey self msg), w.openOk (sinkPath self (sinkKey self msg)),
            !w.openOk (sinkPath self (sinkKey self msg))⟩ := by
      simp [usedStream, hk]
    rw [hu]
    unfold sinkKey at hk
    unfold sinkPath sinkKey writeSucceeds writeFails
    rcases Bool.eq_false_or_eq_true self.separateFilesByLevel with hs | hs
    · simp only [hs, if_true] at hk ⊢
      simp only [outputToFile, hs, if_true, hk, Function.update_same]
      cases ho : w.openOk (self.baseFilename ++ ("_" ++ logLevelToString msg.level) ++ ".log")
        <;> cases hw : w.writeOk
          (self.baseFilename ++ ("_" ++ logLevelToString msg.level) ++ ".log")
          (w.fs (self.baseFilename ++ ("_" ++ logLevelToString msg.level) ++ ".log"))
          (f ++ "\n")
        <;> simp [ho, hw]
    · simp only [hs, Bool.false_eq_true, if_false] at hk ⊢
      simp only [outputToFile, hs, Bool.false_eq_true, if_false, hk, Function.update_same]
      cases ho : w.openOk (self.baseFilename ++ ".log")
        <;> cases hw : w.writeOk (self.baseFilename ++ ".log")
          (w.fs (self.baseFilename ++ ".log")) (f ++ "\n")
        <;> simp [ho, hw]
  | some h =>
    have hu : usedStream self w msg = h := by simp [usedStream, hk]
    have hself : Function.update self.files (sinkKey self msg) (some h) = self.files := by
      rw [← hk]; exact Function.update_eq_self _ _
    rw [hu]
    unfold sinkKey at hk hself
    unfold sinkKey writeSucceeds writeFails
    obtain ⟨hp, hopen, hfail⟩ := h
    simp only [outputToFile, hk]
    cases hopen <;> cases hfail <;> cases hw : w.writeOk hp (w.fs hp) (f ++ "\n")
      <;> simp [hw, hself]

theorem outputToConsole_eq (win32 : Bool) (self : AsyncLogger) (w : World) (msg : LogMessage) :
    outputToConsole win32 w msg (formatMessage self msg)
      = { w with stdout := w.stdout ++ consoleLine win32 self msg } := by
  cases win32 <;> simp [outputToConsole, consoleLine, String.append_assoc]

/-- Closed form of one emission. -/
theorem emit_eq (win32 : Bool) (self : AsyncLogger) (w : World) (msg : LogMessage) :
    emit win32 (self, w) msg
      = ({ self with
            files := Function.update self.files (sinkKey self msg)
              (some { usedStream self w msg with
                failed := (usedStream self w msg).failed
                  || writeFails w (usedStream self w msg) (formatMessage self msg) })
            fileIndex :=
              if self.files (sinkKey self msg) = none then
                Function.update self.fileIndex (sinkKey self msg) (some 1)
              else self.fileIndex },
         { w with
            stdout := w.stdout ++ consoleLine win32 self msg
            fs :=
              if writeSucceeds w (usedStream self w msg) (formatMessage self msg) then
                Function.update w.fs (usedStream self w msg).path
                  (w.fs (usedStream self w msg).path ++ fileLine self msg)
              else w.fs
            openCalls :=
              if self.files (sinkKey self msg) = none then
                w.openCalls ++ [sinkPath self (sinkKey self msg)]
              else w.openCalls }) := by
  unfold emit
  simp only [outputToConsole_eq, outputToFile_eq]
  simp [usedStream, writeSucceeds, writeFails, fileLine, String.append_assoc]

/-! ## Sinks: sequences of emissions -/

theorem formatMessage_congr {a b : AsyncLogger} (h : a.useJsonFormat = b.useJsonFormat)
    (msg : LogMessage) : formatMessage a msg = formatMessage b msg := by
  simp [formatMessage, h]

theorem consoleLine_congr {a b : AsyncLogger} (h : a.useJsonFormat = b.useJsonFormat)
    (win32 : Bool) (msg : LogMessage) : consoleLine win32 a msg = consoleLine win32 b msg := by
  simp [consoleLine, formatMessage_congr h]

theorem fileLine_congr {a b : AsyncLogger} (h : a.useJsonFormat = b.useJsonFormat)
    (msg : LogMessage) : fileLine a msg = fileLine b msg := by
  simp [fileLine, formatMessage_congr h]

theorem sinkKey_congr {a b : AsyncLogger} (h : a.separateFilesByLevel = b.separateFilesByLevel)
    (msg : LogMessage) : sinkKey a msg = sinkKey b msg := by
  simp [sinkKey, h]

theorem sinkPath_congr {a b : AsyncLogger} (h : a.separateFilesByLevel = b.separateFilesByLevel)
    (hb : a.baseFilename = b.baseFilename) (k : LogLevel) : sinkPath a k = sinkPath b k := by
  simp [sinkPath, h, hb]

theorem logLevelToString_suffix_inj (k k' : LogLevel)
    (h : (logLevelToString k).data ++ ".log".data = (logLevelToString k').data ++ ".log".data) :
    k = k' := by
  cases k <;> cases k' <;> simp [logLevelToString] at h <;> rfl

/-- With splitting enabled, different keys have different paths. -/
theorem sinkPath_inj (self : AsyncLogger) (hs : self.separateFilesByLevel = true)
    (k k' : LogLevel) (h : sinkPath self k = sinkPath self k') : k = k' := by
  have hd := congrArg String.data h
  simp only [sinkPath, hs, if_true, String.data_append, List.append_assoc] at hd
  have h1 := List.append_cancel_left (List.append_cancel_left hd)
  exact logLevelToString_suffix_inj k k' h1

theorem validKey_sinkKey (self : AsyncLogger) (msg : LogMessage) :
    ValidKey self (sinkKey self msg) := by
  rcases Bool.eq_false_or_eq_true self.separateFilesByLevel with hs | hs
  · exact Or.inl hs
  · exact Or.inr (by simp [sinkKey, hs])

theorem sinkPath_inj_valid (self : AsyncLogger) (k k' : LogLevel) (hk : ValidKey self k)
    (hk' : ValidKey self k') (h : sinkPath self k = sinkPath self k') : k = k' := by
  rcases Bool.eq_false_or_eq_true self.separateFilesByLevel with hs | hs
  · exact sinkPath_inj self hs k k' h
  · rcases hk with hk | hk
    · simp [hs] at hk
    · rcases hk' with hk' | hk'
      · simp [hs] at hk'
      · rw [hk, hk']

theorem sinkInv_start (win32 : Bool) (self0 : AsyncLogger) (w0 : World)
    (hok : HandlesOk self0 w0) : SinkInv win32 self0 w0 [] (self0, w0) where
  baseFilename := rfl
  minLogLevel := rfl
  separateFilesByLevel := rfl
  useJsonFormat := rfl
  logQueue := rfl
  exitFlag := rfl
  workerExited := rfl
  openOk := rfl
  writeOk := rfl
  stderr := rfl
  handles := hok
  stdout := by simp [joinAll]
  fs := by simp [joinAll]
  opens := ⟨[], by simp⟩

theorem update_files_ne_none (files : LogLevel → Option OFStream) (key k : LogLevel)
    (h : OFStream) (hk : files k ≠ none) : Function.update files key (some h) k ≠ none := by
  by_cases hkk : k = key
  · subst hkk; simp
  · simpa [Function.update_noteq hkk] using hk

/-- The stream used for a message in a state with well-formed handles. -/
theorem usedStream_ok (self : AsyncLogger) (w : World) (hok : HandlesOk self w)
    (msg : LogMessage) :
    (usedStream self w msg).path = sinkPath self (sinkKey self msg)
    ∧ (usedStream self w msg).isOpen = w.openOk (sinkPath self (sinkKey self msg))
    ∧ ((usedStream self w msg).isOpen = true → WritesOk w (usedStream self w msg).path →
        (usedStream self w msg).failed = false) := by
  cases hk : self.files (sinkKey self msg) with
  | none =>
    have hu : usedStream self w msg
        = ⟨sinkPath self (sinkKey self msg), w.openOk (sinkPath self (sinkKey self msg)),
            !w.openOk (sinkPath self (sinkKey self msg))⟩ := by
      simp [usedStream, hk]
    rw [hu]
    refine ⟨rfl, rfl, ?_⟩
    intro h _
    simp only at h
    simp [h]
  | some h =>
    have hu : usedStream self w msg = h := by simp [usedStream, hk]
    rw [hu]
    obtain ⟨h1, h2, -, h4⟩ := hok _ _ hk
    exact ⟨h1, h2, h4⟩

theorem sinkInv_after_emit (win32 : Bool) (self0 : AsyncLogger) (w0 : World)
    (es : List LogMessage) (s : AsyncLogger × World) (inv : SinkInv win32 self0 w0 es s)
    (e : LogMessage) : SinkInv win32 self0 w0 (es ++ [e]) (emit win32 s e) := by
  obtain ⟨st, w⟩ := s
  have hsep : st.separateFilesByLevel = self0.separateFilesByLevel := inv.separateFilesByLevel
  have hjson : st.useJsonFormat = self0.useJsonFormat := inv.useJsonFormat
  have hbase : st.baseFilename = self0.baseFilename := inv.baseFilename
  have hok : w.openOk = w0.openOk := inv.openOk
  have hwr : w.writeOk = w0.writeOk := inv.writeOk
  have hkey : sinkKey st e = sinkKey self0 e := sinkKey_congr hsep e
  have hpath : ∀ k, sinkPath st k = sinkPath self0 k := sinkPath_congr hsep hbase
  have hcl : consoleLine win32 st e = consoleLine win32 self0 e := consoleLine_congr hjson win32 e
  have hfl : fileLine st e = fileLine self0 e := fileLine_congr hjson e
  have hhandles : HandlesOk st w := inv.handles
  obtain ⟨u1, u2, u3⟩ := usedStream_ok st w hhandles e
  rw [hkey, hpath] at u1 u2
  rw [emit_eq win32 st w e, hkey, hpath, hcl, hfl]
  refine
    { baseFilename := hbase
      minLogLevel := inv.minLogLevel
      separateFilesByLevel := hsep
      useJsonFormat := hjson
      logQueue := inv.logQueue
      exitFlag := inv.exitFlag
      workerExited := inv.workerExited
      openOk := hok
      writeOk := hwr
      stderr := inv.stderr
      handles := ?handles
      stdout := ?stdout
      fs := ?fs
      opens := ?opens }
  case handles =>
    intro k h hk
    show h.path = sinkPath st k ∧ h.isOpen = w.openOk (sinkPath st k)
      ∧ (st.separateFilesByLevel = false → k = LogLevel.DEBUG)
      ∧ (h.isOpen = true → WritesOk w h.path → h.failed = false)
    simp only at hk
    by_cases hkk : k = sinkKey self0 e
    · subst hkk
      rw [Function.update_same] at hk
      have hh := (Option.some.inj hk).symm
      subst hh
      refine ⟨by rw [hpath]; exact u1, by rw [hpath]; exact u2, ?_, ?_⟩
      · intro hs
        simp [sinkKey, ← hsep, hs]
      · intro ho hw
        simp only at ho hw
        have hf := u3 ho hw
        have hwo := hw (w.fs (usedStream st w e).path) (formatMessage st e ++ "\n")
        simp [hf, writeFails, hwo]
    · rw [Function.update_noteq hkk] at hk
      exact hhandles k h hk
  case stdout =>
    have := inv.stdout
    simp only at this ⊢
    rw [this, List.map_append, joinAll_append, List.map_singleton, joinAll_singleton,
      String.append_assoc]
  case fs =>
    intro p hwp
    have := inv.fs p hwp
    simp only at this ⊢
    rw [List.filter_append, List.map_append, joinAll_append]
    by_cases hr : routed self0 w0 p e = true
    · have hr2 := hr
      simp only [routed, Bool.and_eq_true, decide_eq_true_eq] at hr2
      obtain ⟨hp, ho⟩ := hr2
      have hpu : (usedStream st w e).path = p := by rw [u1, hp]
      have hopen : (usedStream st w e).isOpen = true := by rw [u2, hok, hp, ho]
      have hwp2 : WritesOk w (usedStream st w e).path := by
        intro c d
        rw [hpu, hwr]
        exact hwp c d
      have hgood := u3 hopen hwp2
      have hws : writeSucceeds w (usedStream st w e) (formatMessage st e) = true := by
        simp [writeSucceeds, hopen, hgood, hwp2 _ _]
      simp only [hws, if_true, hpu, Function.update_same, List.filter_cons, hr, List.filter_nil,
        List.map_singleton, joinAll_singleton]
      rw [this, String.append_assoc]
    · have hr3 : routed self0 w0 p e = false := by simpa using hr
      simp only [List.filter_cons, hr3, Bool.false_eq_true, if_false, List.filter_nil,
        List.map_nil, joinAll, String.append_empty]
      rw [← this]
      by_cases hws : writeSucceeds w (usedStream st w e) (formatMessage st e) = true
      · simp only [hws, if_true]
        have hne : p ≠ (usedStream st w e).path := by
          intro hp
          have hopen : (usedStream st w e).isOpen = true := by
            simp only [writeSucceeds, Bool.and_eq_true] at hws
            exact hws.1.1
          rw [u2, hok] at hopen
          rw [u1] at hp
          subst hp
          simp [routed, hopen] at hr3
        rw [Function.update_noteq hne]
      · simp only [hws, Bool.false_eq_true, if_false]
  case opens =>
    obtain ⟨opened, ho1, ho2, ho3⟩ := inv.opens
    simp only at ho1 ho3 ⊢
    by_cases hn : st.files (sinkKey self0 e) = none
    · refine ⟨opened ++ [sinkPath self0 (sinkKey self0 e)], ?_, ?_, ?_⟩
      · simp only [hn, if_true, ho1, List.append_assoc]
      · rw [List.nodup_append]
        refine ⟨ho2, List.nodup_singleton _, ?_⟩
        intro a ha hb
        rw [List.mem_singleton] at hb
        subst hb
        obtain ⟨k, hk1, hk2, hk3⟩ := ho3 _ ha
        have hv : ValidKey self0 (sinkKey self0 e) := validKey_sinkKey self0 e
        have := sinkPath_inj_valid self0 _ _ hv hk2 hk3
        rw [← this] at hk1
        exact hk1 hn
      · intro q hq
        rcases List.mem_append.1 hq with hq | hq
        · obtain ⟨k, hk1, hk2, hk3⟩ := ho3 q hq
          exact ⟨k, update_files_ne_none _ _ _ _ hk1, hk2, hk3⟩
        · rw [List.mem_singleton.1 hq]
          exact ⟨sinkKey self0 e, by simp, validKey_sinkKey self0 e, rfl⟩
    · refine ⟨opened, ?_, ho2, ?_⟩
      · simp only [hn, if_false, ho1]
      · intro q hq
        obtain ⟨k, hk1, hk2, hk3⟩ := ho3 q hq
        exact ⟨k, update_files_ne_none _ _ _ _ hk1, hk2, hk3⟩

theorem emitAll_append (win32 : Bool) (s : AsyncLogger × World) (es : List LogMessage)
    (e : LogMessage) : emitAll win32 s (es ++ [e]) = emit win32 (emitAll win32 s es) e := by
  simp [emitAll, List.foldl_append]

/-- Emitting any sequence of messages from a well-formed state keeps the sink
invariant. -/
theorem emitAll_inv (win32 : Bool) (self0 : AsyncLogger) (w0 : World)
    (hok : HandlesOk self0 w0) (es : List LogMessage) :
    SinkInv win32 self0 w0 es (emitAll win32 (self0, w0) es) := by
  induction es using List.reverseRecOn with
  | nil => exact sinkInv_start win32 self0 w0 hok
  | append_singleton l a ih =>
    rw [emitAll_append]
    exact sinkInv_after_emit win32 self0 w0 l _ ih a

theorem handlesOk_new (baseFilename : String) (minLogLevel : LogLevel)
    (separateFilesByLevel useJsonFormat : Bool) (maxFileSizeBytes : Nat) (w : World) :
    HandlesOk
      (AsyncLogger.new baseFilename minLogLevel separateFilesByLevel useJsonFormat
        maxFileSizeBytes) w := by
  intro k h hk
  simp [AsyncLogger.new] at hk

/-! ## Traces -/

theorem emit_withControl (win32 : Bool) (b : AsyncLogger) (w : World) (e : LogMessage)
    (q : List LogMessage) (x y : Bool) :
    emit win32 (withControl b q x y, w) e
      = (withControl (emit win32 (b, w) e).1 q x y, (emit win32 (b, w) e).2) := by
  rw [emit_eq, emit_eq]
  rfl

/-- Case form of one pass of the worker loop. -/
theorem processQueueStep_eq (win32 : Bool) (self : AsyncLogger) (w : World) :
    processQueueStep win32 self w
      = if self.workerExited then (self, w)
        else
          match self.logQueue with
          | [] => if self.exitFlag then ({ self with workerExited := true }, w) else (self, w)
          | e :: rest => emit win32 ({ self with logQueue := rest }, w) e := by
  unfold processQueueStep waitPredicate emit
  cases hx : self.workerExited <;> cases hq : self.logQueue <;> cases hf : self.exitFlag <;> simp

theorem accepted_append (min : LogLevel) (a b : List Action) :
    accepted min (a ++ b) = accepted min a ++ accepted min b := by
  induction a with
  | nil => simp [accepted]
  | cons x xs ih =>
    cases x with
    | log now level message =>
      by_cases h : level < min <;> simp [accepted, h, ih]
    | worker => simp [accepted, ih]
    | shutdown => simp [accepted, ih]

theorem run_append (win32 : Bool) (s : AsyncLogger × World) (a b : List Action) :
    run win32 s (a ++ b) = run win32 (run win32 s a) b := by
  simp [run, List.foldl_append]

theorem runInv_after_step (win32 : Bool) (self0 : AsyncLogger) (w0 : World)
    (hok : HandlesOk self0 w0) (tr : List Action) (s : AsyncLogger × World)
    (emitted : List LogMessage) (inv : RunInv win32 self0 w0 tr s emitted) (a : Action) :
    ∃ emitted2, RunInv win32 self0 w0 (tr ++ [a]) (step win32 s a) emitted2 := by
  obtain ⟨st, w⟩ := s
  have hq := inv.queue
  have hst := inv.state
  have hw := inv.world
  simp only at hq hst hw
  have hmin : st.minLogLevel = self0.minLogLevel := by
    rw [hst]; exact (emitAll_inv win32 self0 w0 hok emitted).minLogLevel
  cases a with
  | log now level message =>
    refine ⟨emitted, ?_⟩
    by_cases hl : level < st.minLogLevel
    · have hl2 : level < self0.minLogLevel := hmin ▸ hl
      have e1 : log st now level message = st := by simp [log, hl]
      exact
        { queue := by simp [step, e1, accepted_append, accepted, hl2, hq]
          state := by simp only [step, e1]; exact hst
          world := hw }
    · have hl2 : ¬ level < self0.minLogLevel := hmin ▸ hl
      have e1 : log st now level message
          = { st with logQueue := st.logQueue ++ [LogMessage.new now level message] } := by
        simp [log, hl]
      exact
        { queue := by
            simp only [step, e1, accepted_append, accepted, hl2, if_false]
            rw [← List.append_assoc, hq, List.append_assoc]
          state := by
            simp only [step, e1]
            conv_lhs => rw [hst]
            rfl
          world := hw }
  | shutdown =>
    refine ⟨emitted, ?_⟩
    exact
      { queue := by simp [step, destructorBegin, accepted_append, accepted, hq]
        state := by
          simp only [step, destructorBegin]
          conv_lhs => rw [hst]
          rfl
        world := hw }
  | worker =>
    have hacc : accepted self0.minLogLevel (tr ++ [Action.worker])
        = accepted self0.minLogLevel tr := by simp [accepted_append, accepted]
    simp only [step, processQueueStep_eq]
    cases hx : st.workerExited with
    | true =>
      refine ⟨emitted, ?_⟩
      simp only [if_true]
      exact { queue := by rw [hacc]; exact hq, state := hst, world := hw }
    | false =>
      simp only [Bool.false_eq_true, if_false]
      cases hqq : st.logQueue with
      | nil =>
        refine ⟨emitted, ?_⟩
        cases hf : st.exitFlag with
        | true =>
          simp only [if_true]
          exact
            { queue := by rw [hacc]; simpa [hqq] using hq
              state := by
                simp only
                conv_lhs => rw [hst]
                rfl
              world := hw }
        | false =>
          simp only [Bool.false_eq_true, if_false]
          exact { queue := by rw [hacc]; exact hq, state := hst, world := hw }
      | cons e rest =>
        refine ⟨emitted ++ [e], ?_⟩
        simp only
        have h1 : ({ st with logQueue := rest } : AsyncLogger)
            = withControl (emitAll win32 (self0, w0) emitted).1 rest st.exitFlag
                st.workerExited := by
          conv_lhs => rw [hst]
          rfl
        rw [hx] at h1
        rw [h1, hw, emit_withControl, Prod.mk.eta, ← emitAll_append]
        exact
          { queue := by
              rw [hacc, ← hq, hqq]
              simp [withControl]
            state := rfl
            world := rfl }

/-- Every trace from a well-formed state has a list of emitted messages for
which `RunInv` holds. -/
theorem run_inv (win32 : Bool) (self0 : AsyncLogger) (w0 : World) (hok : HandlesOk self0 w0)
    (tr : List Action) :
    ∃ emitted, RunInv win32 self0 w0 tr (run win32 (self0, w0) tr) emitted := by
  induction tr using List.reverseRecOn with
  | nil =>
    exact ⟨[], { queue := by simp [run, accepted], state := rfl, world := rfl }⟩
  | append_singleton l a ih =>
    obtain ⟨emitted, inv⟩ := ih
    rw [run_append]
    exact runInv_after_step win32 self0 w0 hok l _ emitted inv a

/-! ## Filtering and ordering -/

theorem emit_minLogLevel (win32 : Bool) (s : AsyncLogger × World) (e : LogMessage) :
    (emit win32 s e).1.minLogLevel = s.1.minLogLevel := by
  obtain ⟨st, w⟩ := s
  rw [emit_eq]

theorem step_minLogLevel (win32 : Bool) (s : AsyncLogger × World) (a : Action) :
    (step win32 s a).1.minLogLevel = s.1.minLogLevel := by
  cases a with
  | log now level message =>
    simp only [step, log]
    split <;> rfl
  | shutdown => rfl
  | worker =>
    simp only [step, processQueueStep_eq]
    split
    · rfl
    · split
      · split <;> rfl
      · rw [emit_minLogLevel]

theorem step_belowWarning (win32 : Bool) (s : AsyncLogger × World) (a : Action)
    (hmin : s.1.minLogLevel = LogLevel.WARNING) (ha : belowWarning a = true) :
    step win32 s a = s := by
  cases a with
  | log now level message =>
    have h1 : LogLevel.DEBUG < LogLevel.WARNING := by decide
    have h2 : LogLevel.INFO < LogLevel.WARNING := by decide
    cases level <;> simp [belowWarning] at ha <;> simp [step, log, hmin, h1, h2]
  | shutdown => simp [belowWarning] at ha
  | worker => simp [belowWarning] at ha

theorem run_filter_belowWarning (win32 : Bool) (tr : List Action) :
    ∀ s : AsyncLogger × World, s.1.minLogLevel = LogLevel.WARNING →
      run win32 s tr = run win32 s (tr.filter fun a => !belowWarning a) := by
  induction tr with
  | nil => intro s _; rfl
  | cons a tr ih =>
    intro s hmin
    cases ha : belowWarning a with
    | true =>
      have h1 : run win32 s (a :: tr) = run win32 (step win32 s a) tr := rfl
      rw [h1, step_belowWarning win32 s a hmin ha, ih s hmin]
      simp [List.filter_cons, ha]
    | false =>
      have h1 : run win32 s (a :: tr) = run win32 (step win32 s a) tr := rfl
      have h2 : (step win32 s a).1.minLogLevel = LogLevel.WARNING := by
        rw [step_minLogLevel, hmin]
      rw [h1, ih _ h2]
      simp [List.filter_cons, ha, run]

theorem accepted_warning_level (tr : List Action) :
    ∀ e ∈ accepted LogLevel.WARNING tr, e.level = LogLevel.WARNING ∨ e.level = LogLevel.ERROR := by
  induction tr with
  | nil => simp [accepted]
  | cons a tr ih =>
    cases a with
    | log now level message =>
      cases level
      · have h : LogLevel.DEBUG < LogLevel.WARNING := by decide
        simpa [accepted, h] using ih
      · have h : LogLevel.INFO < LogLevel.WARNING := by decide
        simpa [accepted, h] using ih
      · have h : ¬ LogLevel.WARNING < LogLevel.WARNING := by decide
        intro e he
        simp only [accepted, h, if_false, List.mem_cons] at he
        rcases he with he | he
        · left; rw [he]; rfl
        · exact ih e he
      · have h : ¬ LogLevel.ERROR < LogLevel.WARNING := by decide
        intro e he
        simp only [accepted, h, if_false, List.mem_cons] at he
        rcases he with he | he
        · right; rw [he]; rfl
        · exact ih e he
    | worker => simpa [accepted] using ih
    | shutdown => simpa [accepted] using ih

/-- C3: a `log` call below the minimum level returns the logger unchanged,
any other call appends exactly the event (level, message, clock text) at the
tail of the queue and changes nothing else.  With minimum level `WARNING`:
every `WARNING` and `ERROR` call is enqueued, every accepted event has one of
these two levels, and a run reaches the same logger and the same world
(console and files) as the run with the `DEBUG` and `INFO` calls removed. -/
theorem log_filters_below_minLogLevel (self : AsyncLogger) (now : String) (s : LogLevel)
    (m : String) (win32 : Bool) (base : String) (sep json : Bool) (maxSz : Nat) (w0 : World)
    (tr : List Action) :
    (s < self.minLogLevel → log self now s m = self)
    ∧ (¬ s < self.minLogLevel →
        log self now s m = { self with logQueue := self.logQueue ++ [⟨s, m, now⟩] })
    ∧ (self.minLogLevel = LogLevel.WARNING →
        log self now .DEBUG m = self ∧ log self now .INFO m = self
        ∧ (log self now .WARNING m).logQueue = self.logQueue ++ [⟨.WARNING, m, now⟩]
        ∧ (log self now .ERROR m).logQueue = self.logQueue ++ [⟨.ERROR, m, now⟩])
    ∧ (∀ e ∈ accepted LogLevel.WARNING tr, e.level = LogLevel.WARNING ∨ e.level = LogLevel.ERROR)
    ∧ run win32 (AsyncLogger.new base .WARNING sep json maxSz, w0) tr
        = run win32 (AsyncLogger.new base .WARNING sep json maxSz, w0)
            (tr.filter fun a => !belowWarning a) := by
  refine ⟨?_, ?_, ?_, accepted_warning_level tr, run_filter_belowWarning win32 tr _ rfl⟩
  · intro h
    simp [log, h]
  · intro h
    simp [log, h, LogMessage.new]
  · intro h
    have h1 : LogLevel.DEBUG < LogLevel.WARNING := by decide
    have h2 : LogLevel.INFO < LogLevel.WARNING := by decide
    have h3 : ¬ LogLevel.WARNING < LogLevel.WARNING := by decide
    have h4 : ¬ LogLevel.ERROR < LogLevel.WARNING := by decide
    simp [log, h, h1, h2, h3, h4, LogMessage.new]

/-- Instance of C3 with minimum level `WARNING`: an `INFO` call is dropped, an
`ERROR` call is enqueued. -/
theorem log_filters_below_minLogLevel_witness :
    log (AsyncLogger.new "logs/logfile" .WARNING true false 1048576) "2024-01-01 00:00:00"
        .INFO "skipped"
      = AsyncLogger.new "logs/logfile" .WARNING true false 1048576
    ∧ (log (AsyncLogger.new "logs/logfile" .WARNING true false 1048576) "2024-01-01 00:00:00"
        .ERROR "kept").logQueue = [⟨.ERROR, "kept", "2024-01-01 00:00:00"⟩] :=
  ⟨(log_filters_below_minLogLevel (AsyncLogger.new "logs/logfile" .WARNING true false 1048576)
      "2024-01-01 00:00:00" .INFO "skipped" false "logs/logfile" true false 1048576
      worldAllOpen []).1 (by decide),
   (log_filters_below_minLogLevel (AsyncLogger.new "logs/logfile" .WARNING true false 1048576)
      "2024-01-01 00:00:00" .ERROR "kept" false "logs/logfile" true false 1048576
      worldAllOpen []).2.2.1 rfl |>.2.2.2⟩

/-- C4: in every state reached by `log` calls, worker passes and shutdown
requests from a fresh logger, the events already emitted followed by the
events still queued are the accepted events in acceptance order, and the
console holds exactly the emitted events' lines in that order. -/
theorem emitted_then_queued_eq_accepted (win32 : Bool) (base : String) (min : LogLevel)
    (sep json : Bool) (maxSz : Nat) (w0 : World) (tr : List Action) :
    ∃ emitted : List LogMessage,
      emitted ++ (run win32 (AsyncLogger.new base min sep json maxSz, w0) tr).1.logQueue
        = accepted min tr
      ∧ (run win32 (AsyncLogger.new base min sep json maxSz, w0) tr).2.stdout
        = w0.stdout
          ++ joinAll (emitted.map (consoleLine win32 (AsyncLogger.new base min sep json maxSz))) := by
  obtain ⟨emitted, inv⟩ :=
    run_inv win32 (AsyncLogger.new base min sep json maxSz) w0 (handlesOk_new _ _ _ _ _ _) tr
  refine ⟨emitted, ?_, ?_⟩
  · have := inv.queue
    simpa [AsyncLogger.new] using this
  · rw [inv.world]
    exact (emitAll_inv win32 _ w0 (handlesOk_new _ _ _ _ _ _) emitted).stdout

/-! ## Shutdown -/

theorem emit_control (win32 : Bool) (s : AsyncLogger × World) (e : LogMessage) :
    (emit win32 s e).1.logQueue = s.1.logQueue
    ∧ (emit win32 s e).1.exitFlag = s.1.exitFlag
    ∧ (emit win32 s e).1.workerExited = s.1.workerExited := by
  obtain ⟨st, w⟩ := s
  rw [emit_eq]
  exact ⟨rfl, rfl, rfl⟩

theorem run_cons (win32 : Bool) (s : AsyncLogger × World) (a : Action) (tr : List Action) :
    run win32 s (a :: tr) = run win32 (step win32 s a) tr := rfl

theorem run_workers_of_exited (win32 : Bool) (n : Nat) (s : AsyncLogger × World)
    (h : s.1.workerExited = true) : run win32 s (List.replicate n Action.worker) = s := by
  induction n with
  | zero => rfl
  | succ n ih =>
    have hs : step win32 s Action.worker = s := by
      simp [step, processQueueStep_eq, h]
    rw [List.replicate_succ, run_cons, hs, ih]

/-- Once the exit flag is up, worker passes exit only with an empty queue, and
one pass more than the queue is long is enough to exit. -/
theorem run_workers_drain (win32 : Bool) (n : Nat) :
    ∀ s : AsyncLogger × World, s.1.exitFlag = true → s.1.workerExited = false →
      ((run win32 s (List.replicate n Action.worker)).1.workerExited = true →
        (run win32 s (List.replicate n Action.worker)).1.logQueue = [])
      ∧ (s.1.logQueue.length + 1 ≤ n →
        (run win32 s (List.replicate n Action.worker)).1.workerExited = true) := by
  induction n with
  | zero =>
    intro s _ hx
    refine ⟨?_, ?_⟩
    · intro h
      simp [run, hx] at h
    · intro h
      omega
  | succ n ih =>
    intro s hf hx
    rw [List.replicate_succ, run_cons]
    cases hq : s.1.logQueue with
    | nil =>
      have hs : step win32 s Action.worker = ({ s.1 with workerExited := true }, s.2) := by
        simp [step, processQueueStep_eq, hx, hq, hf]
      rw [hs, run_workers_of_exited win32 n _ rfl]
      exact ⟨fun _ => hq, fun _ => rfl⟩
    | cons e rest =>
      have hs : step win32 s Action.worker = emit win32 ({ s.1 with logQueue := rest }, s.2) e := by
        simp [step, processQueueStep_eq, hx, hq]
      obtain ⟨c1, c2, c3⟩ := emit_control win32 ({ s.1 with logQueue := rest }, s.2) e
      rw [hs]
      obtain ⟨i1, i2⟩ := ih (emit win32 ({ s.1 with logQueue := rest }, s.2) e)
        (by rw [c2]; exact hf) (by rw [c3]; exact hx)
      refine ⟨i1, ?_⟩
      intro hn
      apply i2
      rw [c1]
      simp only [List.length_cons] at hn ⊢
      omega

theorem run_no_shutdown (win32 : Bool) (tr : List Action) (hns : Action.shutdown ∉ tr) :
    ∀ s : AsyncLogger × World, s.1.exitFlag = false → s.1.workerExited = false →
      (run win32 s tr).1.exitFlag = false ∧ (run win32 s tr).1.workerExited = false := by
  induction tr with
  | nil => intro s h1 h2; exact ⟨h1, h2⟩
  | cons a tr ih =>
    intro s h1 h2
    rw [run_cons]
    have hns2 : Action.shutdown ∉ tr := fun h => hns (List.mem_cons_of_mem _ h)
    apply ih hns2
    · cases a with
      | log now level message =>
        simp only [step, log]
        split
        · exact h1
        · exact h1
      | shutdown => exact absurd (List.mem_cons_self _ _) hns
      | worker =>
        simp only [step, processQueueStep_eq, h2, Bool.false_eq_true, if_false, h1]
        split
        · exact h1
        · rw [(emit_control win32 _ _).2.1]
    · cases a with
      | log now level message =>
        simp only [step, log]
        split
        · exact h2
        · exact h2
      | shutdown => exact absurd (List.mem_cons_self _ _) hns
      | worker =>
        simp only [step, processQueueStep_eq, h2, Bool.false_eq_true, if_false, h1]
        split
        · exact h2
        · rw [(emit_control win32 _ _).2.2]

theorem accepted_shutdown_workers (min : LogLevel) (n : Nat) :
    accepted min (Action.shutdown :: List.replicate n Action.worker) = [] := by
  induction n with
  | zero => simp [accepted]
  | succ n ih =>
    simp only [accepted, List.replicate_succ] at ih ⊢
    exact ih

theorem processQueueStep_exit (win32 : Bool) (self : AsyncLogger) (w : World)
    (hx : self.workerExited = false)
    (h : (processQueueStep win32 self w).1.workerExited = true) :
    self.exitFlag = true ∧ self.logQueue = [] := by
  rw [processQueueStep_eq] at h
  simp only [hx, Bool.false_eq_true, if_false] at h
  cases hq : self.logQueue with
  | nil =>
    cases hf : self.exitFlag with
    | true => exact ⟨rfl, rfl⟩
    | false => simp [hq, hf, hx] at h
  | cons e rest =>
    simp only [hq] at h
    rw [(emit_control win32 _ _).2.2] at h
    simp [hx] at h

/-- C5: a pass of the worker loop leaves the loop only when, in that same
pass, the exit flag is set and the queue is empty.  For a fresh logger, any
interleaving `pre` of `log` calls and worker passes, then the shutdown request,
then `n` worker passes: if the worker has stopped, the queue is empty and the
world is exactly the result of emitting all accepted events in order (so the
console holds one line per accepted event); and the worker has stopped as
soon as `n` exceeds the number of accepted events. -/
theorem worker_exits_only_drained (win32 : Bool) (base : String) (min : LogLevel)
    (sep json : Bool) (maxSz : Nat) (w0 : World) (pre : List Action)
    (hpre : Action.shutdown ∉ pre) (n : Nat) :
    (∀ (self : AsyncLogger) (w : World), self.workerExited = false →
        (processQueueStep win32 self w).1.workerExited = true →
        self.exitFlag = true ∧ self.logQueue = [])
    ∧ ((run win32 (AsyncLogger.new base min sep json maxSz, w0)
          (pre ++ Action.shutdown :: List.replicate n Action.worker)).1.workerExited = true →
        (run win32 (AsyncLogger.new base min sep json maxSz, w0)
          (pre ++ Action.shutdown :: List.replicate n Action.worker)).1.logQueue = []
        ∧ (run win32 (AsyncLogger.new base min sep json maxSz, w0)
            (pre ++ Action.shutdown :: List.replicate n Action.worker)).2
          = (emitAll win32 (AsyncLogger.new base min sep json maxSz, w0) (accepted min pre)).2
        ∧ (run win32 (AsyncLogger.new base min sep json maxSz, w0)
            (pre ++ Action.shutdown :: List.replicate n Action.worker)).2.stdout
          = w0.stdout ++ joinAll ((accepted min pre).map
              (consoleLine win32 (AsyncLogger.new base min sep json maxSz))))
    ∧ ((accepted min pre).length + 1 ≤ n →
        (run win32 (AsyncLogger.new base min sep json maxSz, w0)
          (pre ++ Action.shutdown :: List.replicate n Action.worker)).1.workerExited = true) := by
  have hok : HandlesOk (AsyncLogger.new base min sep json maxSz) w0 := handlesOk_new _ _ _ _ _ _
  obtain ⟨p1, p2⟩ := run_no_shutdown win32 pre hpre (AsyncLogger.new base min sep json maxSz, w0)
    rfl rfl
  have hsplit : run win32 (AsyncLogger.new base min sep json maxSz, w0)
      (pre ++ Action.shutdown :: List.replicate n Action.worker)
      = run win32
          (destructorBegin (run win32 (AsyncLogger.new base min sep json maxSz, w0) pre).1,
            (run win32 (AsyncLogger.new base min sep json maxSz, w0) pre).2)
          (List.replicate n Action.worker) := by
    rw [run_append, run_cons]; rfl
  obtain ⟨d1, d2⟩ := run_workers_drain win32 n
    (destructorBegin (run win32 (AsyncLogger.new base min sep json maxSz, w0) pre).1,
      (run win32 (AsyncLogger.new base min sep json maxSz, w0) pre).2) rfl p2
  rw [← hsplit] at d1 d2
  obtain ⟨emitted, inv⟩ := run_inv win32 (AsyncLogger.new base min sep json maxSz) w0 hok
    (pre ++ Action.shutdown :: List.replicate n Action.worker)
  obtain ⟨preEmitted, preInv⟩ := run_inv win32 (AsyncLogger.new base min sep json maxSz) w0 hok pre
  refine ⟨fun self w => processQueueStep_exit win32 self w, ?_, ?_⟩
  · intro hx
    have hq := d1 hx
    have hacc := inv.queue
    rw [hq, accepted_append, accepted_shutdown_workers] at hacc
    have hem : emitted = accepted min pre := by simpa [AsyncLogger.new] using hacc
    have hw := inv.world
    rw [hem] at hw
    refine ⟨hq, hw, ?_⟩
    rw [hw]
    exact (emitAll_inv win32 _ w0 hok (accepted min pre)).stdout
  · intro hn
    apply d2
    have hpq := preInv.queue
    have hlen := congrArg List.length hpq
    simp only [List.length_append, AsyncLogger.new, List.length_nil, Nat.zero_add] at hlen
    show (run win32 (AsyncLogger.new base min sep json maxSz, w0) pre).1.logQueue.length + 1 ≤ n
    simp only [AsyncLogger.new]
    omega

/-- Instance of C5: two accepted events, shutdown, three worker passes. -/
theorem worker_exits_only_drained_witness :
    (run false (AsyncLogger.new "logs/logfile" .DEBUG true false 1048576, worldAllOpen)
      ([Action.log "2024-01-01 00:00:00" .INFO "a", Action.worker,
          Action.log "2024-01-01 00:00:01" .ERROR "b"]
        ++ Action.shutdown :: List.replicate 3 Action.worker)).1.workerExited = true
    ∧ (run false (AsyncLogger.new "logs/logfile" .DEBUG true false 1048576, worldAllOpen)
      ([Action.log "2024-01-01 00:00:00" .INFO "a", Action.worker,
          Action.log "2024-01-01 00:00:01" .ERROR "b"]
        ++ Action.shutdown :: List.replicate 3 Action.worker)).1.logQueue = []
    ∧ (run false (AsyncLogger.new "logs/logfile" .DEBUG true false 1048576, worldAllOpen)
      ([Action.log "2024-01-01 00:00:00" .INFO "a", Action.worker,
          Action.log "2024-01-01 00:00:01" .ERROR "b"]
        ++ Action.shutdown :: List.replicate 3 Action.worker)).2.stdout
      = "\x1b[32m2024-01-01 00:00:00 [INFO] a\x1b[0m\n\x1b[31m2024-01-01 00:00:01 [ERROR] b\x1b[0m\n" :=
  have h := worker_exits_only_drained false "logs/logfile" .DEBUG true false 1048576 worldAllOpen
    [Action.log "2024-01-01 00:00:00" .INFO "a", Action.worker,
      Action.log "2024-01-01 00:00:01" .ERROR "b"] (by decide) 3
  ⟨h.2.2 (by decide), (h.2.1 (h.2.2 (by decide))).1,
    (h.2.1 (h.2.2 (by decide))).2.2.trans (by decide)⟩

/-! ## File sinks -/

theorem sinkPath_new_split (base : String) (min : LogLevel) (json : Bool) (maxSz : Nat)
    (k : LogLevel) :
    sinkPath (AsyncLogger.new base min true json maxSz) k
      = base ++ "_" ++ logLevelToString k ++ ".log" := by
  simp [sinkPath, AsyncLogger.new, String.append_assoc]

theorem sinkPath_new_single (base : String) (min : LogLevel) (json : Bool) (maxSz : Nat)
    (k : LogLevel) :
    sinkPath (AsyncLogger.new base min false json maxSz) k = base ++ ".log" := by
  simp [sinkPath, AsyncLogger.new]

/-- Effect of one more emission on the file at a path `p` whose writes succeed. -/
theorem emitAll_fs_next (win32 : Bool) (self0 : AsyncLogger) (w0 : World)
    (hok : HandlesOk self0 w0) (es : List LogMessage) (e : LogMessage) (p : String)
    (hwp : WritesOk w0 p) :
    (emit win32 (emitAll win32 (self0, w0) es) e).2.fs p
      = (emitAll win32 (self0, w0) es).2.fs p
        ++ (if routed self0 w0 p e then fileLine self0 e else "") := by
  rw [← emitAll_append, (emitAll_inv win32 self0 w0 hok (es ++ [e])).fs p hwp,
    (emitAll_inv win32 self0 w0 hok es).fs p hwp, List.filter_append, List.map_append, joinAll_append,
    String.append_assoc]
  by_cases hr : routed self0 w0 p e = true
  · simp [List.filter_cons, hr, joinAll]
  · simp [List.filter_cons, hr, joinAll]

/-- C6 (amended): starting from a fresh logger in a world where every open
succeeds and every write succeeds, and emitting the events `es`.  With splitting, the file `base_NAME.log` of each
severity gains exactly the lines of the events of that severity, in emission
order, every other path is untouched, and the four names are distinct.
Without splitting, `base.log` gains the lines of all events in emission order
and every other path is untouched.  In both modes the next event `e` is
appended to the file of its own key and changes no other path. -/
theorem file_routing_when_opens_and_writes_succeed (win32 : Bool) (base : String)
    (min : LogLevel) (json : Bool) (maxSz : Nat) (w0 : World) (es : List LogMessage)
    (e : LogMessage) (hopen : ∀ p, w0.openOk p = true)
    (hwrite : ∀ p c d, w0.writeOk p c d = true) :
    ((∀ s : LogLevel,
        (emitAll win32 (AsyncLogger.new base min true json maxSz, w0) es).2.fs
            (base ++ "_" ++ logLevelToString s ++ ".log")
          = w0.fs (base ++ "_" ++ logLevelToString s ++ ".log")
            ++ joinAll ((es.filter fun e => decide (e.level = s)).map
                (fileLine (AsyncLogger.new base min true json maxSz))))
      ∧ (∀ p : String, (∀ s : LogLevel, p ≠ base ++ "_" ++ logLevelToString s ++ ".log") →
          (emitAll win32 (AsyncLogger.new base min true json maxSz, w0) es).2.fs p = w0.fs p)
      ∧ (∀ s t : LogLevel,
          base ++ "_" ++ logLevelToString s ++ ".log" = base ++ "_" ++ logLevelToString t ++ ".log"
            → s = t))
    ∧ ((emitAll win32 (AsyncLogger.new base min false json maxSz, w0) es).2.fs (base ++ ".log")
          = w0.fs (base ++ ".log")
            ++ joinAll (es.map (fileLine (AsyncLogger.new base min false json maxSz)))
      ∧ (∀ p : String, p ≠ base ++ ".log" →
          (emitAll win32 (AsyncLogger.new base min false json maxSz, w0) es).2.fs p = w0.fs p))
    ∧ ((emit win32 (emitAll win32 (AsyncLogger.new base min true json maxSz, w0) es) e).2.fs
            (base ++ "_" ++ logLevelToString e.level ++ ".log")
          = (emitAll win32 (AsyncLogger.new base min true json maxSz, w0) es).2.fs
              (base ++ "_" ++ logLevelToString e.level ++ ".log")
            ++ fileLine (AsyncLogger.new base min true json maxSz) e
      ∧ (∀ p : String, p ≠ base ++ "_" ++ logLevelToString e.level ++ ".log" →
          (emit win32 (emitAll win32 (AsyncLogger.new base min true json maxSz, w0) es) e).2.fs p
            = (emitAll win32 (AsyncLogger.new base min true json maxSz, w0) es).2.fs p))
    ∧ ((emit win32 (emitAll win32 (AsyncLogger.new base min false json maxSz, w0) es) e).2.fs
            (base ++ ".log")
          = (emitAll win32 (AsyncLogger.new base min false json maxSz, w0) es).2.fs (base ++ ".log")
            ++ fileLine (AsyncLogger.new base min false json maxSz) e
      ∧ (∀ p : String, p ≠ base ++ ".log" →
          (emit win32 (emitAll win32 (AsyncLogger.new base min false json maxSz, w0) es) e).2.fs p
            = (emitAll win32 (AsyncLogger.new base min false json maxSz, w0) es).2.fs p)) := by
  have hk1 : sinkKey (AsyncLogger.new base min true json maxSz) e = e.level := by
    simp [sinkKey, AsyncLogger.new]
  have inv1 := emitAll_inv win32 (AsyncLogger.new base min true json maxSz) w0
    (handlesOk_new _ _ _ _ _ _) es
  have inv2 := emitAll_inv win32 (AsyncLogger.new base min false json maxSz) w0
    (handlesOk_new _ _ _ _ _ _) es
  have hinj : ∀ s t : LogLevel,
      base ++ "_" ++ logLevelToString s ++ ".log" = base ++ "_" ++ logLevelToString t ++ ".log"
        → s = t := by
    intro s t h
    rw [← sinkPath_new_split base min json maxSz s, ← sinkPath_new_split base min json maxSz t] at h
    exact sinkPath_inj _ rfl s t h
  refine ⟨⟨?_, ?_, hinj⟩, ⟨?_, ?_⟩, ⟨?_, ?_⟩, ⟨?_, ?_⟩⟩
  rotate_left 4
  · rw [emitAll_fs_next win32 _ w0 (handlesOk_new _ _ _ _ _ _) es e _ (hwrite _)]
    simp [routed, sinkPath_new_split, hk1, hopen]
  · intro p hp
    rw [emitAll_fs_next win32 _ w0 (handlesOk_new _ _ _ _ _ _) es e _ (hwrite _)]
    have : routed (AsyncLogger.new base min true json maxSz) w0 p e = false := by
      simp only [routed, sinkPath_new_split, hk1, Bool.and_eq_false_iff, decide_eq_false_iff_not]
      exact Or.inl fun h => hp h.symm
    simp [this]
  · rw [emitAll_fs_next win32 _ w0 (handlesOk_new _ _ _ _ _ _) es e _ (hwrite _)]
    simp [routed, sinkPath_new_single, hopen]
  · intro p hp
    rw [emitAll_fs_next win32 _ w0 (handlesOk_new _ _ _ _ _ _) es e _ (hwrite _)]
    have : routed (AsyncLogger.new base min false json maxSz) w0 p e = false := by
      simp only [routed, sinkPath_new_single, Bool.and_eq_false_iff, decide_eq_false_iff_not]
      exact Or.inl fun h => hp h.symm
    simp [this]
  · intro s
    rw [inv1.fs _ (hwrite _)]
    congr 3
    apply List.filter_congr
    intro e _
    simp only [routed, hopen, Bool.and_true, sinkPath_new_split]
    have hk : sinkKey (AsyncLogger.new base min true json maxSz) e = e.level := by
      simp [sinkKey, AsyncLogger.new]
    rw [hk]
    by_cases hl : e.level = s
    · simp [hl]
    · have : base ++ "_" ++ logLevelToString e.level ++ ".log"
          ≠ base ++ "_" ++ logLevelToString s ++ ".log" := fun h => hl (hinj _ _ h)
      simp [hl, this]
  · intro p hp
    rw [inv1.fs _ (hwrite _)]
    have : es.filter (routed (AsyncLogger.new base min true json maxSz) w0 p) = [] := by
      rw [List.filter_eq_nil_iff]
      intro e _
      simp only [routed, sinkPath_new_split, Bool.and_eq_true, decide_eq_true_eq, not_and]
      intro h
      exact absurd h.symm (hp _)
    rw [this]
    simp [joinAll]
  · rw [inv2.fs _ (hwrite _)]
    have : es.filter (routed (AsyncLogger.new base min false json maxSz) w0 (base ++ ".log"))
        = es := by
      rw [List.filter_eq_self]
      intro e _
      simp [routed, sinkPath_new_single, hopen]
    rw [this]
  · intro p hp
    rw [inv2.fs _ (hwrite _)]
    have : es.filter (routed (AsyncLogger.new base min false json maxSz) w0 p) = [] := by
      rw [List.filter_eq_nil_iff]
      intro e _
      simp only [routed, sinkPath_new_single, Bool.and_eq_true, decide_eq_true_eq, not_and]
      intro h
      exact absurd h.symm hp
    rw [this]
    simp [joinAll]

/-- Instance of the amended C6: the `DEBUG` file holds the two `DEBUG` lines in
order. -/
theorem file_routing_when_opens_and_writes_succeed_witness :
    (emitAll false (AsyncLogger.new "logs/logfile" .DEBUG true false 1048576, worldAllOpen)
        [⟨.DEBUG, "a", "2024-01-01 00:00:00"⟩, ⟨.ERROR, "b", "2024-01-01 00:00:01"⟩,
          ⟨.DEBUG, "c", "2024-01-01 00:00:02"⟩]).2.fs
        ("logs/logfile" ++ "_" ++ logLevelToString .DEBUG ++ ".log")
      = "2024-01-01 00:00:00 [DEBUG] a\n2024-01-01 00:00:02 [DEBUG] c\n" :=
  ((file_routing_when_opens_and_writes_succeed false "logs/logfile" .DEBUG false 1048576
      worldAllOpen
      [⟨.DEBUG, "a", "2024-01-01 00:00:00"⟩, ⟨.ERROR, "b", "2024-01-01 00:00:01"⟩,
        ⟨.DEBUG, "c", "2024-01-01 00:00:02"⟩] ⟨.INFO, "d", "2024-01-01 00:00:03"⟩
      (fun _ => rfl) (fun _ _ _ => rfl)).1.1 .DEBUG).trans (by decide)

/-- C6 as stated fails: every open succeeds in `worldSecondWriteFails`, yet
after the three `DEBUG` events `A`, `A2`, `A3` the `DEBUG` file holds only the
line of `A`.  The write of `A2` fails and sets the error flag of the stream,
and the write of `A3` is then dropped although the world would accept it. -/
theorem failed_write_loses_later_lines :
    (∀ p, worldSecondWriteFails.openOk p = true)
    ∧ worldSecondWriteFails.writeOk "logs/logfile_DEBUG.log"
        "2024-01-01 00:00:00 [DEBUG] A\n" "2024-01-01 00:00:02 [DEBUG] A3\n" = true
    ∧ (emitAll false
        (AsyncLogger.new "logs/logfile" .DEBUG true false 1048576, worldSecondWriteFails)
        [⟨.DEBUG, "A", "2024-01-01 00:00:00"⟩, ⟨.DEBUG, "A2", "2024-01-01 00:00:01"⟩,
          ⟨.DEBUG, "A3", "2024-01-01 00:00:02"⟩]).2.fs "logs/logfile_DEBUG.log"
      = "2024-01-01 00:00:00 [DEBUG] A\n"
    ∧ (emitAll false
        (AsyncLogger.new "logs/logfile" .DEBUG true false 1048576, worldSecondWriteFails)
        [⟨.DEBUG, "A", "2024-01-01 00:00:00"⟩, ⟨.DEBUG, "A2", "2024-01-01 00:00:01"⟩,
          ⟨.DEBUG, "A3", "2024-01-01 00:00:02"⟩]).2.fs "logs/logfile_DEBUG.log"
      ≠ worldSecondWriteFails.fs "logs/logfile_DEBUG.log"
        ++ joinAll (([⟨.DEBUG, "A", "2024-01-01 00:00:00"⟩, ⟨.DEBUG, "A2", "2024-01-01 00:00:01"⟩,
            ⟨.DEBUG, "A3", "2024-01-01 00:00:02"⟩].filter
              fun e => decide (e.level = LogLevel.DEBUG)).map
            (fileLine (AsyncLogger.new "logs/logfile" .DEBUG true false 1048576))) := by
  refine ⟨fun _ => rfl, by decide, by decide, by decide⟩

theorem outputToFile_creates (self : AsyncLogger) (w : World) (msg : LogMessage) (f : String) :
    (outputToFile self w msg f).1.files (sinkKey self msg) ≠ none := by
  rw [outputToFile_eq]
  simp

/-- A call of `outputToFile` whose key already has a stream that is not open
changes nothing at all. -/
theorem outputToFile_of_closed (self : AsyncLogger) (w : World) (msg : LogMessage) (f : String)
    (h : OFStream) (hk : self.files (sinkKey self msg) = some h) (hc : h.isOpen = false) :
    outputToFile self w msg f = (self, w) := by
  have hu : usedStream self w msg = h := by simp [usedStream, hk]
  have hself : Function.update self.files (sinkKey self msg) (some h) = self.files := by
    rw [← hk]; exact Function.update_eq_self _ _
  rw [outputToFile_eq, hu]
  obtain ⟨hp, hopen, hfail⟩ := h
  simp only at hc
  subst hc
  simp [writeFails, writeSucceeds, hk, hself]

/-- C8 (amended): when the stream for an event's key is not open after
`outputToFile`, the write is skipped without any report: standard error,
standard output and every file are as before, and if the key already had a
stream the logger and the world are entirely unchanged.  No run of the logger
ever writes to standard error. -/
theorem closed_stream_write_skipped_silently (self : AsyncLogger) (w : World)
    (msg : LogMessage) (f : String) (win32 : Bool) (base : String) (min : LogLevel)
    (sep json : Bool) (maxSz : Nat) (w0 : World) (tr : List Action)
    (hclosed : ∃ h, (outputToFile self w msg f).1.files (sinkKey self msg) = some h
      ∧ h.isOpen = false) :
    (outputToFile self w msg f).2.stderr = w.stderr
    ∧ (outputToFile self w msg f).2.stdout = w.stdout
    ∧ (outputToFile self w msg f).2.fs = w.fs
    ∧ (self.files (sinkKey self msg) ≠ none → outputToFile self w msg f = (self, w))
    ∧ (run win32 (AsyncLogger.new base min sep json maxSz, w0) tr).2.stderr = w0.stderr := by
  obtain ⟨h, hh, hc⟩ := hclosed
  have hrun : (run win32 (AsyncLogger.new base min sep json maxSz, w0) tr).2.stderr
      = w0.stderr := by
    obtain ⟨emitted, inv⟩ :=
      run_inv win32 (AsyncLogger.new base min sep json maxSz) w0 (handlesOk_new _ _ _ _ _ _) tr
    rw [inv.world]
    exact (emitAll_inv win32 _ w0 (handlesOk_new _ _ _ _ _ _) emitted).stderr
  rw [outputToFile_eq] at hh
  simp only [Function.update_same, Option.some.injEq] at hh
  have hu : (usedStream self w msg).isOpen = false := by
    rw [← hh] at hc
    exact hc
  have hws : writeSucceeds w (usedStream self w msg) f = false := by
    simp [writeSucceeds, hu]
  refine ⟨?_, ?_, ?_, ?_, hrun⟩
  · rw [outputToFile_eq]
  · rw [outputToFile_eq]
  · rw [outputToFile_eq]
    simp [hws]
  · intro hne
    cases hk : self.files (sinkKey self msg) with
    | none => exact absurd hk hne
    | some h0 =>
      have hu0 : usedStream self w msg = h0 := by simp [usedStream, hk]
      exact outputToFile_of_closed self w msg f h0 hk (by rw [← hu0]; exact hu)

/-- Instance of the amended C8: a failed open writes nothing to either standard
stream. -/
theorem closed_stream_write_skipped_silently_witness :
    (outputToFile (AsyncLogger.new "logs/logfile" .DEBUG true false 1048576) worldNoOpen
        ⟨.ERROR, "first", "2024-01-01 00:00:00"⟩ "2024-01-01 00:00:00 [ERROR] first").2.stderr = ""
    ∧ (outputToFile (AsyncLogger.new "logs/logfile" .DEBUG true false 1048576) worldNoOpen
        ⟨.ERROR, "first", "2024-01-01 00:00:00"⟩ "2024-01-01 00:00:00 [ERROR] first").2.stdout = "" :=
  have h := closed_stream_write_skipped_silently
    (AsyncLogger.new "logs/logfile" .DEBUG true false 1048576) worldNoOpen
    ⟨.ERROR, "first", "2024-01-01 00:00:00"⟩ "2024-01-01 00:00:00 [ERROR] first"
    false "logs/logfile" .DEBUG true false 1048576 worldNoOpen []
    ⟨⟨"logs/logfile_ERROR.log", false, true⟩, by decide, rfl⟩
  ⟨h.1, h.2.1⟩

/-- C8 as stated fails: in a world where the `ERROR` file cannot be opened, the
first `ERROR` event leaves a closed stream in the table, an empty file and an
empty standard error, with only the ordinary line on the console; and
`outputToFile` for a second `ERROR` event returns the logger and the world
exactly as they were, so the skipped write is recorded nowhere. -/
theorem failed_write_is_not_reported :
    failedSinkState.1.files .ERROR = some ⟨"logs/logfile_ERROR.log", false, true⟩
    ∧ failedSinkState.2.fs "logs/logfile_ERROR.log" = ""
    ∧ failedSinkState.2.stderr = ""
    ∧ failedSinkState.2.stdout = "\x1b[31m2024-01-01 00:00:00 [ERROR] first\x1b[0m\n"
    ∧ outputToFile failedSinkState.1 failedSinkState.2 ⟨.ERROR, "second", "2024-01-01 00:00:01"⟩
        (formatMessage failedSinkState.1 ⟨.ERROR, "second", "2024-01-01 00:00:01"⟩)
      = failedSinkState := by
  refine ⟨by decide, by decide, by decide, by decide, ?_⟩
  have hk : failedSinkState.1.files
      (sinkKey failedSinkState.1 ⟨.ERROR, "second", "2024-01-01 00:00:01"⟩)
      = some ⟨"logs/logfile_ERROR.log", false, true⟩ := by decide
  exact outputToFile_of_closed _ _ _ _ _ hk rfl

/-! ## Handle table -/

theorem outputToFile_files_other (self : AsyncLogger) (w : World) (msg : LogMessage)
    (f : String) (k : LogLevel) (hk : k ≠ sinkKey self msg) :
    (outputToFile self w msg f).1.files k = self.files k := by
  rw [outputToFile_eq]
  exact Function.update_noteq hk _ _

/-- A stream in the table survives `outputToFile` with its path and its open
state, and is kept exactly as it is unless it is open with a clear error
flag (the only case in which a write is attempted). -/
theorem outputToFile_files_keep (self : AsyncLogger) (w : World) (msg : LogMessage)
    (f : String) (k : LogLevel) (h : OFStream) (hk : self.files k = some h) :
    ∃ h2, (outputToFile self w msg f).1.files k = some h2 ∧ h2.path = h.path
      ∧ h2.isOpen = h.isOpen ∧ (h.isOpen = false ∨ h.failed = true → h2 = h) := by
  by_cases hkk : k = sinkKey self msg
  · subst hkk
    have hu : usedStream self w msg = h := by simp [usedStream, hk]
    rw [outputToFile_eq, hu]
    refine ⟨_, Function.update_same _ _ _, rfl, rfl, ?_⟩
    obtain ⟨hp, hopen, hfail⟩ := h
    intro hc
    simp only at hc
    rcases hc with hc | hc <;> subst hc <;> simp [writeFails]
  · rw [outputToFile_files_other _ _ _ _ _ hkk]
    exact ⟨h, hk, rfl, rfl, fun _ => rfl⟩

theorem step_files_keep (win32 : Bool) (s : AsyncLogger × World) (a : Action) (k : LogLevel)
    (h : OFStream) (hk : s.1.files k = some h) :
    ∃ h2, (step win32 s a).1.files k = some h2 ∧ h2.path = h.path
      ∧ h2.isOpen = h.isOpen ∧ (h.isOpen = false ∨ h.failed = true → h2 = h) := by
  cases a with
  | log now level message =>
    refine ⟨h, ?_, rfl, rfl, fun _ => rfl⟩
    simp only [step, log]
    split <;> exact hk
  | shutdown => exact ⟨h, hk, rfl, rfl, fun _ => rfl⟩
  | worker =>
    simp only [step, processQueueStep_eq]
    split
    · exact ⟨h, hk, rfl, rfl, fun _ => rfl⟩
    · split
      · refine ⟨h, ?_, rfl, rfl, fun _ => rfl⟩
        split <;> exact hk
      · exact outputToFile_files_keep _ _ _ _ k h hk

/-- C9: in every state reached from a fresh logger, a stream in the handle
table stays in the table with the same path and the same open state through
every further step and every `outputToFile` call, and exactly as it is unless
it is open with a clear error flag (then a failed write can set the flag);
`outputToFile` leaves a stream under the key of the event it
writes and touches no other key; no path has been opened more than once by
the logger, whether or not opens succeed; and without splitting the only key
in the table is `DEBUG`. -/
theorem handle_table_invariant (win32 : Bool) (base : String) (min : LogLevel)
    (sep json : Bool) (maxSz : Nat) (w0 : World) (tr : List Action) (a : Action)
    (e : LogMessage) (f : String) :
    (∀ k h, (run win32 (AsyncLogger.new base min sep json maxSz, w0) tr).1.files k = some h →
        ∃ h2, (step win32 (run win32 (AsyncLogger.new base min sep json maxSz, w0) tr) a).1.files k
            = some h2
          ∧ h2.path = h.path ∧ h2.isOpen = h.isOpen
          ∧ (h.isOpen = false ∨ h.failed = true → h2 = h))
    ∧ (∀ k h, (run win32 (AsyncLogger.new base min sep json maxSz, w0) tr).1.files k = some h →
        ∃ h2, (outputToFile (run win32 (AsyncLogger.new base min sep json maxSz, w0) tr).1
            (run win32 (AsyncLogger.new base min sep json maxSz, w0) tr).2 e f).1.files k
            = some h2
          ∧ h2.path = h.path ∧ h2.isOpen = h.isOpen
          ∧ (h.isOpen = false ∨ h.failed = true → h2 = h))
    ∧ (outputToFile (run win32 (AsyncLogger.new base min sep json maxSz, w0) tr).1
          (run win32 (AsyncLogger.new base min sep json maxSz, w0) tr).2 e f).1.files
        (sinkKey (run win32 (AsyncLogger.new base min sep json maxSz, w0) tr).1 e) ≠ none
    ∧ (∀ k, k ≠ sinkKey (run win32 (AsyncLogger.new base min sep json maxSz, w0) tr).1 e →
        (outputToFile (run win32 (AsyncLogger.new base min sep json maxSz, w0) tr).1
          (run win32 (AsyncLogger.new base min sep json maxSz, w0) tr).2 e f).1.files k
          = (run win32 (AsyncLogger.new base min sep json maxSz, w0) tr).1.files k)
    ∧ (∀ p : String,
        (run win32 (AsyncLogger.new base min sep json maxSz, w0) tr).2.openCalls.count p
          ≤ w0.openCalls.count p + 1)
    ∧ (sep = false → ∀ k,
        (run win32 (AsyncLogger.new base min sep json maxSz, w0) tr).1.files k ≠ none →
          k = LogLevel.DEBUG) := by
  have hok : HandlesOk (AsyncLogger.new base min sep json maxSz) w0 := handlesOk_new _ _ _ _ _ _
  obtain ⟨emitted, inv⟩ := run_inv win32 (AsyncLogger.new base min sep json maxSz) w0 hok tr
  have sinv := emitAll_inv win32 (AsyncLogger.new base min sep json maxSz) w0 hok emitted
  have hfiles : (run win32 (AsyncLogger.new base min sep json maxSz, w0) tr).1.files
      = (emitAll win32 (AsyncLogger.new base min sep json maxSz, w0) emitted).1.files := by
    have := congrArg AsyncLogger.files inv.state
    exact this
  refine ⟨fun k h hk => step_files_keep win32 _ a k h hk,
    fun k h hk => outputToFile_files_keep _ _ _ _ k h hk,
    outputToFile_creates _ _ _ _,
    fun k hk => outputToFile_files_other _ _ _ _ k hk, ?_, ?_⟩
  · intro p
    obtain ⟨opened, ho1, ho2, -⟩ := sinv.opens
    rw [inv.world, ho1, List.count_append]
    have := List.nodup_iff_count_le_one.1 ho2 p
    omega
  · intro hs k hk
    rw [hfiles] at hk
    cases hf : (emitAll win32 (AsyncLogger.new base min sep json maxSz, w0) emitted).1.files k with
    | none => exact absurd hf hk
    | some h =>
      have hsep := sinv.separateFilesByLevel
      exact (sinv.handles k h hf).2.2.1 (by rw [hsep]; exact hs)

/-- Instance of C9: the closed `ERROR` stream left by a failed open is still in
the table, unchanged, after a second `ERROR` event. -/
theorem handle_table_invariant_witness :
    (step false
        (run false (AsyncLogger.new "logs/logfile" .DEBUG true false 1048576, worldNoOpen)
          [Action.log "2024-01-01 00:00:00" .ERROR "first", Action.worker,
            Action.log "2024-01-01 00:00:01" .ERROR "second"])
        Action.worker).1.files .ERROR
      = some ⟨"logs/logfile_ERROR.log", false, true⟩ :=
  Exists.elim
    ((handle_table_invariant false "logs/logfile" .DEBUG true false 1048576 worldNoOpen
      [Action.log "2024-01-01 00:00:00" .ERROR "first", Action.worker,
        Action.log "2024-01-01 00:00:01" .ERROR "second"] Action.worker
      ⟨.ERROR, "x", "2024-01-01 00:00:02"⟩ "x").1 .ERROR ⟨"logs/logfile_ERROR.log", false, true⟩
      (by decide))
    (fun _ hh => hh.1.trans (congrArg some (hh.2.2.2 (Or.inl rfl))))

end AsyncLoggerModel
